import Mathlib

/-!
Shallow embedding of the OLWSX tiered cache core (src/cache/lib.rs, l1.rs,
l2.rs, l3.rs) and verification of its specification claims.

Modelling conventions:
* Keys are byte sequences (`List Nat`); the cache never inspects bytes, only
  compares keys for equality, so `List Nat` is a faithful stand-in for `Vec<u8>`.
* `Instant`/`Duration` become `Nat` ticks.  `Entry.is_expired`, which in Rust is
  `self.ts.elapsed() > self.ttl`, becomes `now - ts > ttl` with truncated
  subtraction (a monotonic clock never observes `now < ts`).  Operations that
  consult the clock (`lookup`) take `now` explicitly.
* `HashMap<Vec<u8>, Entry>` becomes an association list with replace-on-insert
  (`mapInsert` conses the new binding and deletes any old one); `VecDeque`
  becomes a `List` whose head is the deque front (push_back = append,
  pop_front = uncons).
* Each tier operation returns `(result, new state)`; the Rust methods mutate
  under a lock, and the spec's own concurrency model says operations are
  totally ordered per tier, so the sequential state-passing semantics is the
  per-tier behaviour.
* The two unbounded `while` loops in l2.rs (`touch` and `insert` call
  `replace` until `t1.len() + t2.len() <= MAX_ITEMS`) are modelled with fuel
  equal to `t1.length + t2.length` at loop entry.  Whenever
  `p_target ≤ MAX_ITEMS` — an invariant of every reachable state, proved
  below — each `replace` under the loop guard strictly shrinks
  `t1.length + t2.length`, so this fuel is never exhausted before the guard
  turns false and the fuelled loop computes exactly what the Rust loop does.
-/

namespace OLWSX

/-- Cache keys: arbitrary byte sequences, exact-match equality. -/
abbrev Key := List Nat

/-- `Entry` from cache/lib.rs: value bytes, flag bitmask, creation timestamp,
time-to-live. -/
structure Entry where
  value : List Nat
  flags : Nat
  ts : Nat
  ttl : Nat
deriving DecidableEq, Repr

/-- `Entry::is_expired`: `self.ts.elapsed() > self.ttl`, evaluated at clock
value `now`. -/
def Entry.isExpired (e : Entry) (now : Nat) : Bool :=
  decide (e.ttl < now - e.ts)

/-- `CacheError` from cache/lib.rs. -/
inductive CacheError where
  | TooLarge
  | NotFound
  | Expired
deriving DecidableEq, Repr

/-- `Result<α, CacheError>` as the Rust cache trait returns it. -/
inductive CacheResult (α : Type) where
  | ok (a : α)
  | err (e : CacheError)
deriving DecidableEq, Repr

/-! ### Association-list model of `HashMap<Vec<u8>, Entry>` -/

/-- `HashMap::get`. -/
def mapFind : List (Key × Entry) → Key → Option Entry
  | [], _ => none
  | (k', v) :: rest, k => if k' = k then some v else mapFind rest k

/-- `HashMap::remove`: delete every binding of `k` (reachable maps bind each
key once). -/
def mapRemove (m : List (Key × Entry)) (k : Key) : List (Key × Entry) :=
  m.filter (fun p => decide (p.1 ≠ k))

/-- `HashMap::insert`: replace-on-insert. -/
def mapInsert (m : List (Key × Entry)) (k : Key) (v : Entry) : List (Key × Entry) :=
  (k, v) :: mapRemove m k

/-- `HashMap::contains_key`. -/
def mapContains (m : List (Key × Entry)) (k : Key) : Bool :=
  (mapFind m k).isSome

/-- The keys currently bound in the map. -/
def mapKeys (m : List (Key × Entry)) : List Key :=
  m.map Prod.fst

/-! ### Tier L1 — bounded FIFO (cache/l1.rs) -/

/-- `MAX_ENTRIES` in l1.rs (frozen cap). -/
def L1_MAX_ENTRIES : Nat := 1024

/-- L1 `State`: live map plus FIFO insertion-history queue. -/
structure L1State where
  map : List (Key × Entry)
  order : List Key
deriving DecidableEq, Repr

/-- `L1::new`. -/
def L1.fresh : L1State := ⟨[], []⟩

/-- The `while st.order.len() > MAX_ENTRIES { pop_front; map.remove }` loop of
`L1::insert`. -/
def l1EvictLoop : List Key → List (Key × Entry) → List Key × List (Key × Entry)
  | [], m => ([], m)
  | o :: rest, m =>
    if (o :: rest).length > L1_MAX_ENTRIES then
      l1EvictLoop rest (mapRemove m o)
    else (o :: rest, m)

/-- `L1::lookup` at clock value `now`. -/
def l1Lookup (st : L1State) (key : Key) (now : Nat) :
    CacheResult Entry × L1State :=
  match mapFind st.map key with
  | some e =>
    if e.isExpired now then
      (.err .Expired, { st with map := mapRemove st.map key })
    else
      (.ok e, st)
  | none => (.err .NotFound, st)

/-- `L1::insert`: queue the key only if it is not a live map key, store the
entry, then evict from the queue front while over cap. -/
def l1Insert (st : L1State) (key : Key) (e : Entry) :
    CacheResult Unit × L1State :=
  let order1 := if mapContains st.map key then st.order else st.order ++ [key]
  let map1 := mapInsert st.map key e
  let om := l1EvictLoop order1 map1
  (.ok (), ⟨om.2, om.1⟩)

/-- `L1::invalidate`: remove from the map; if it was live, also filter the key
out of the queue. -/
def l1Invalidate (st : L1State) (key : Key) :
    CacheResult Unit × L1State :=
  if mapContains st.map key then
    (.ok (), ⟨mapRemove st.map key, st.order.filter (fun x => decide (x ≠ key))⟩)
  else
    (.err .NotFound, st)

/-! ### Tier L2 — ARC-like cache (cache/l2.rs) -/

/-- `MAX_ITEMS` in l2.rs (frozen). -/
def L2_MAX_ITEMS : Nat := 65536

/-- `MAX_VALUE_BYTES` in l2.rs: 64 MiB. -/
def L2_MAX_VALUE_BYTES : Nat := 64 * 1024 * 1024

/-- `DEFAULT_TTL` in l2.rs: 300 s. -/
def L2_DEFAULT_TTL : Nat := 300

/-- L2 `State`: the four ARC lists, the live map, and the balancing target. -/
structure L2State where
  t1 : List Key
  t2 : List Key
  b1 : List Key
  b2 : List Key
  map : List (Key × Entry)
  p_target : Nat
deriving DecidableEq, Repr

/-- `L2::new`: everything empty, `p_target = MAX_ITEMS / 2`. -/
def L2.fresh : L2State := ⟨[], [], [], [], [], L2_MAX_ITEMS / 2⟩

/-- Ghost-list trim: after `push_back`, `if len > MAX_ITEMS { pop_front }`. -/
def trimGhost (b : List Key) : List Key :=
  if b.length > L2_MAX_ITEMS then b.tail else b

/-- `L2::replace`: the ARC eviction decision. -/
def l2Replace (st : L2State) (missKey : Key) : L2State :=
  if st.t1.length > 0 ∧
      (st.t1.length > st.p_target ∨
        (missKey ∈ st.b2 ∧ st.t1.length = st.p_target)) then
    match st.t1 with
    | [] => st
    | k :: rest =>
      { st with
        t1 := rest
        map := mapRemove st.map k
        b1 := trimGhost (st.b1 ++ [k]) }
  else
    match st.t2 with
    | [] => st
    | k :: rest =>
      { st with
        t2 := rest
        map := mapRemove st.map k
        b2 := trimGhost (st.b2 ++ [k]) }

/-- The `while st.t1.len() + st.t2.len() > MAX_ITEMS { replace }` loop, with
fuel (see the module comment: fuel `t1.length + t2.length` makes this exactly
the Rust loop whenever `p_target ≤ MAX_ITEMS`). -/
def l2ReplaceLoop (key : Key) : Nat → L2State → L2State
  | 0, st => st
  | fuel + 1, st =>
    if st.t1.length + st.t2.length > L2_MAX_ITEMS then
      l2ReplaceLoop key fuel (l2Replace st key)
    else st

/-- `L2::touch`: promote a `t1` hit to `t2`, refresh a `t2` hit, or admit a
new key into `t1` and rebalance while over capacity. -/
def l2Touch (st : L2State) (key : Key) : L2State :=
  if key ∈ st.t1 then
    { st with t1 := st.t1.erase key, t2 := st.t2 ++ [key] }
  else if key ∈ st.t2 then
    { st with t2 := st.t2.erase key ++ [key] }
  else
    let st1 := { st with t1 := st.t1 ++ [key] }
    l2ReplaceLoop key (st1.t1.length + st1.t2.length) st1

/-- `L2::lookup` at clock value `now`: live hit promotes (or purges if
expired); a miss consults the ghost lists to tune `p_target`. -/
def l2Lookup (st : L2State) (key : Key) (now : Nat) :
    CacheResult Entry × L2State :=
  match mapFind st.map key with
  | some e =>
    if e.isExpired now then
      (.err .Expired, { st with map := mapRemove st.map key })
    else
      (.ok e, l2Touch st key)
  | none =>
    if key ∈ st.b1 then
      (.err .NotFound, { st with p_target := min L2_MAX_ITEMS (st.p_target + 1) })
    else if key ∈ st.b2 then
      (.err .NotFound, { st with p_target := st.p_target - 1 })
    else
      (.err .NotFound, st)

/-- The entry `L2::insert` actually stores: the caller's entry with a
zero-duration TTL replaced by the 300 s default. -/
def l2Stored (e : Entry) : Entry :=
  { e with ttl := if e.ttl = 0 then L2_DEFAULT_TTL else e.ttl }

/-- The state after `L2::insert` has stored the entry and run `touch`. -/
def l2InsertTouched (st : L2State) (key : Key) (e : Entry) : L2State :=
  l2Touch { st with map := mapInsert st.map key (l2Stored e) } key

/-- `L2::insert`: size-cap rejection, TTL defaulting, store, `touch`, then the
capacity-enforcing `replace` loop. -/
def l2Insert (st : L2State) (key : Key) (e : Entry) :
    CacheResult Unit × L2State :=
  if e.value.length > L2_MAX_VALUE_BYTES then
    (.err .TooLarge, st)
  else
    (.ok (),
      l2ReplaceLoop key
        ((l2InsertTouched st key e).t1.length + (l2InsertTouched st key e).t2.length)
        (l2InsertTouched st key e))

/-- `L2::invalidate`: remove from the map, filter the key out of `t1` and `t2`
(unconditionally, as the Rust code does), report whether it was live. -/
def l2Invalidate (st : L2State) (key : Key) :
    CacheResult Unit × L2State :=
  let existed := mapContains st.map key
  let st1 : L2State :=
    { st with
      map := mapRemove st.map key
      t1 := st.t1.filter (fun x => decide (x ≠ key))
      t2 := st.t2.filter (fun x => decide (x ≠ key)) }
  if existed then (.ok (), st1) else (.err .NotFound, st1)

/-! ### Tier L3 — unbounded facade (cache/l3.rs) -/

/-- L3 state is just the map. -/
abbrev L3State := List (Key × Entry)

/-- `L3::new`. -/
def L3.fresh : L3State := []

/-- `L3::lookup` at clock value `now`. -/
def l3Lookup (st : L3State) (key : Key) (now : Nat) :
    CacheResult Entry × L3State :=
  match mapFind st key with
  | some e =>
    if e.isExpired now then
      (.err .Expired, mapRemove st key)
    else
      (.ok e, st)
  | none => (.err .NotFound, st)

/-- `L3::insert`: unconditional store, no cap. -/
def l3Insert (st : L3State) (key : Key) (e : Entry) :
    CacheResult Unit × L3State :=
  (.ok (), mapInsert st key e)

/-- `L3::invalidate`. -/
def l3Invalidate (st : L3State) (key : Key) :
    CacheResult Unit × L3State :=
  if mapContains st key then
    (.ok (), mapRemove st key)
  else
    (.err .NotFound, st)

/-! ### Reachable states -/

/-- L1 states reachable from `L1::new` by any sequence of operations. -/
inductive L1Reached : L1State → Prop where
  | fresh : L1Reached L1.fresh
  | lookup {st} (key : Key) (now : Nat) :
      L1Reached st → L1Reached (l1Lookup st key now).2
  | insert {st} (key : Key) (e : Entry) :
      L1Reached st → L1Reached (l1Insert st key e).2
  | invalidate {st} (key : Key) :
      L1Reached st → L1Reached (l1Invalidate st key).2

/-- L2 states reachable from `L2::new` by any sequence of operations. -/
inductive L2Reached : L2State → Prop where
  | fresh : L2Reached L2.fresh
  | lookup {st} (key : Key) (now : Nat) :
      L2Reached st → L2Reached (l2Lookup st key now).2
  | insert {st} (key : Key) (e : Entry) :
      L2Reached st → L2Reached (l2Insert st key e).2
  | invalidate {st} (key : Key) :
      L2Reached st → L2Reached (l2Invalidate st key).2

/-! ### Association-list lemmas -/

/-- The map's keys are pairwise distinct (true of every reachable map). -/
def KeysNodup (m : List (Key × Entry)) : Prop :=
  (mapKeys m).Nodup

theorem mapFind_cons (a : Key) (b : Entry) (rest : List (Key × Entry)) (k : Key) :
    mapFind ((a, b) :: rest) k = if a = k then some b else mapFind rest k := rfl

theorem mapRemove_cons (a : Key) (b : Entry) (rest : List (Key × Entry)) (k : Key) :
    mapRemove ((a, b) :: rest) k =
      if a = k then mapRemove rest k else (a, b) :: mapRemove rest k := by
  unfold mapRemove
  by_cases h : a = k <;> simp [List.filter_cons, h]

theorem mapFind_mapRemove_self (m : List (Key × Entry)) (k : Key) :
    mapFind (mapRemove m k) k = none := by
  induction m with
  | nil => rfl
  | cons p rest ih =>
    obtain ⟨a, b⟩ := p
    rw [mapRemove_cons]
    by_cases h : a = k <;> simp [h, mapFind_cons, ih]

theorem mapFind_mapRemove_ne (m : List (Key × Entry)) {k' k : Key} (h : k' ≠ k) :
    mapFind (mapRemove m k') k = mapFind m k := by
  induction m with
  | nil => rfl
  | cons p rest ih =>
    obtain ⟨a, b⟩ := p
    rw [mapRemove_cons]
    by_cases h1 : a = k'
    · have h2 : ¬a = k := by rw [h1]; exact h
      simp [h1, mapFind_cons, h2, ih, h]
    · by_cases h2 : a = k <;> simp [h1, h2, mapFind_cons, ih, h, Ne.symm h]

theorem mapRemove_of_find_none {m : List (Key × Entry)} {k : Key}
    (h : mapFind m k = none) : mapRemove m k = m := by
  induction m with
  | nil => rfl
  | cons p rest ih =>
    obtain ⟨a, b⟩ := p
    rw [mapFind_cons] at h
    by_cases h1 : a = k
    · simp [h1] at h
    · rw [if_neg h1] at h
      rw [mapRemove_cons, if_neg h1, ih h]

theorem mapFind_mapInsert_self (m : List (Key × Entry)) (k : Key) (v : Entry) :
    mapFind (mapInsert m k v) k = some v := by
  simp [mapInsert, mapFind]

theorem mapFind_mapInsert_ne (m : List (Key × Entry)) {k' k : Key} (v : Entry)
    (h : k' ≠ k) : mapFind (mapInsert m k' v) k = mapFind m k := by
  simp only [mapInsert, mapFind, h, ite_false, if_neg]
  exact mapFind_mapRemove_ne m h

theorem mapFind_eq_none_of_not_mem_keys {m : List (Key × Entry)} {k : Key}
    (h : k ∉ mapKeys m) : mapFind m k = none := by
  induction m with
  | nil => rfl
  | cons p rest ih =>
    simp only [mapKeys, List.map_cons, List.mem_cons, not_or] at h
    have h1 : ¬p.1 = k := fun hh => h.1 hh.symm
    simp [mapFind, h1, ih h.2]

theorem mem_keys_of_find_some {m : List (Key × Entry)} {k : Key} {v : Entry}
    (h : mapFind m k = some v) : k ∈ mapKeys m := by
  by_contra hmem
  rw [mapFind_eq_none_of_not_mem_keys hmem] at h
  exact Option.noConfusion h

theorem mem_keys_mapRemove {m : List (Key × Entry)} {k x : Key}
    (h : x ∈ mapKeys (mapRemove m k)) : x ∈ mapKeys m ∧ x ≠ k := by
  simp only [mapKeys, List.mem_map] at h
  obtain ⟨p, hp, hpx⟩ := h
  have := List.mem_filter.mp hp
  refine ⟨List.mem_map.mpr ⟨p, this.1, hpx⟩, ?_⟩
  have hne := of_decide_eq_true this.2
  exact hpx ▸ hne

theorem keysNodup_mapRemove {m : List (Key × Entry)} (k : Key)
    (h : KeysNodup m) : KeysNodup (mapRemove m k) :=
  h.sublist ((List.filter_sublist m).map Prod.fst)

theorem not_mem_keys_mapRemove_self (m : List (Key × Entry)) (k : Key) :
    k ∉ mapKeys (mapRemove m k) := fun h => (mem_keys_mapRemove h).2 rfl

theorem keysNodup_mapInsert {m : List (Key × Entry)} (k : Key) (v : Entry)
    (h : KeysNodup m) : KeysNodup (mapInsert m k v) := by
  unfold KeysNodup mapInsert
  simp only [mapKeys, List.map_cons]
  exact List.nodup_cons.mpr ⟨not_mem_keys_mapRemove_self m k, keysNodup_mapRemove k h⟩

theorem mem_keys_mapInsert {m : List (Key × Entry)} {k x : Key} {v : Entry}
    (h : x ∈ mapKeys (mapInsert m k v)) : x = k ∨ x ∈ mapKeys m := by
  simp only [mapInsert, mapKeys, List.map_cons, List.mem_cons] at h
  rcases h with h | h
  · exact Or.inl h
  · exact Or.inr (mem_keys_mapRemove h).1

theorem length_le_of_keysNodup_subset {m : List (Key × Entry)} {l : List Key}
    (hn : KeysNodup m) (hs : ∀ x ∈ mapKeys m, x ∈ l) : m.length ≤ l.length := by
  have h1 : (mapKeys m).length = m.length := List.length_map m Prod.fst
  calc m.length = (mapKeys m).length := h1.symm
    _ ≤ l.length := (List.subperm_of_subset hn hs).length_le

theorem find_isSome_of_mem_keys {m : List (Key × Entry)} {k : Key}
    (h : k ∈ mapKeys m) : (mapFind m k).isSome := by
  induction m with
  | nil => simp [mapKeys] at h
  | cons p rest ih =>
    obtain ⟨a, b⟩ := p
    rw [mapFind_cons]
    by_cases h1 : a = k
    · simp [h1]
    · simp only [mapKeys, List.map_cons, List.mem_cons] at h
      rcases h with h | h

      · exact absurd h.symm h1
      · simp [h1, ih h]

theorem mapContains_iff {m : List (Key × Entry)} {k : Key} :
    mapContains m k = true ↔ k ∈ mapKeys m := by
  constructor
  · intro h
    unfold mapContains at h
    cases hf : mapFind m k with
    | none => rw [hf] at h; simp at h
    | some v => exact mem_keys_of_find_some hf
  · intro h
    exact find_isSome_of_mem_keys h

/-! ### L1 invariant: the map is key-distinct, its keys all sit in the queue,
and the queue never exceeds the frozen cap after an operation completes. -/

/-- L1 well-formedness, preserved by every operation. -/
def L1Inv (st : L1State) : Prop :=
  KeysNodup st.map ∧ (∀ x ∈ mapKeys st.map, x ∈ st.order) ∧
    st.order.length ≤ L1_MAX_ENTRIES

theorem l1EvictLoop_length_le (o : List Key) (m : List (Key × Entry)) :
    (l1EvictLoop o m).1.length ≤ L1_MAX_ENTRIES := by
  induction o generalizing m with
  | nil => simp [l1EvictLoop, L1_MAX_ENTRIES]
  | cons a rest ih =>
    simp only [l1EvictLoop]
    by_cases h : (a :: rest).length > L1_MAX_ENTRIES
    · rw [if_pos h]; exact ih _
    · rw [if_neg h]; exact Nat.le_of_not_lt h

theorem l1EvictLoop_keys (o : List Key) (m : List (Key × Entry))
    (hs : ∀ x ∈ mapKeys m, x ∈ o) (hn : KeysNodup m) :
    (∀ x ∈ mapKeys (l1EvictLoop o m).2, x ∈ (l1EvictLoop o m).1) ∧
      KeysNodup (l1EvictLoop o m).2 := by
  induction o generalizing m with
  | nil => exact ⟨hs, hn⟩
  | cons a rest ih =>
    simp only [l1EvictLoop]
    by_cases h : (a :: rest).length > L1_MAX_ENTRIES
    · rw [if_pos h]
      apply ih
      · intro x hx
        obtain ⟨hx1, hx2⟩ := mem_keys_mapRemove hx
        rcases List.mem_cons.mp (hs x hx1) with hxa | hxr
        · exact absurd hxa hx2
        · exact hxr
      · exact keysNodup_mapRemove a hn
    · rw [if_neg h]; exact ⟨hs, hn⟩

theorem l1Insert_state (st : L1State) (key : Key) (e : Entry) :
    (l1Insert st key e).2 =
      ⟨(l1EvictLoop (if mapContains st.map key then st.order else st.order ++ [key])
          (mapInsert st.map key e)).2,
        (l1EvictLoop (if mapContains st.map key then st.order else st.order ++ [key])
          (mapInsert st.map key e)).1⟩ := rfl

theorem l1Insert_inv (st : L1State) (key : Key) (e : Entry) (h : L1Inv st) :
    L1Inv (l1Insert st key e).2 := by
  obtain ⟨hn, hs, _⟩ := h
  rw [l1Insert_state]
  have hsub :
      ∀ x ∈ mapKeys (mapInsert st.map key e),
        x ∈ (if mapContains st.map key then st.order else st.order ++ [key]) := by
    intro x hx
    rcases mem_keys_mapInsert hx with hxk | hxm
    · subst hxk
      by_cases hc : mapContains st.map x = true
      · rw [if_pos hc]; exact hs x (mapContains_iff.mp hc)
      · rw [if_neg hc]; exact List.mem_append.mpr (Or.inr (List.mem_singleton.mpr rfl))
    · by_cases hc : mapContains st.map key = true
      · rw [if_pos hc]; exact hs x hxm
      · rw [if_neg hc]; exact List.mem_append.mpr (Or.inl (hs x hxm))
  have hloop := l1EvictLoop_keys _ _ hsub (keysNodup_mapInsert key e hn)
  exact ⟨hloop.2, hloop.1, l1EvictLoop_length_le _ _⟩

theorem l1Lookup_inv (st : L1State) (key : Key) (now : Nat) (h : L1Inv st) :
    L1Inv (l1Lookup st key now).2 := by
  obtain ⟨hn, hs, hl⟩ := h
  unfold l1Lookup
  cases hf : mapFind st.map key with
  | none => exact ⟨hn, hs, hl⟩
  | some e =>
    by_cases he : e.isExpired now = true
    · simp only [he, if_true, if_pos]
      refine ⟨keysNodup_mapRemove key hn, ?_, hl⟩
      intro x hx
      exact hs x (mem_keys_mapRemove hx).1
    · simp only [he, if_false, if_neg, Bool.not_eq_true, not_false_iff]
      exact ⟨hn, hs, hl⟩

theorem l1Invalidate_inv (st : L1State) (key : Key) (h : L1Inv st) :
    L1Inv (l1Invalidate st key).2 := by
  obtain ⟨hn, hs, hl⟩ := h
  unfold l1Invalidate
  by_cases hc : mapContains st.map key = true
  · rw [if_pos hc]
    refine ⟨keysNodup_mapRemove key hn, ?_, ?_⟩
    · intro x hx
      obtain ⟨hx1, hx2⟩ := mem_keys_mapRemove hx
      exact List.mem_filter.mpr ⟨hs x hx1, decide_eq_true hx2⟩
    · exact le_trans (List.length_filter_le _ _) hl
  · rw [if_neg hc]; exact ⟨hn, hs, hl⟩

theorem l1_reached_inv {st : L1State} (h : L1Reached st) : L1Inv st := by
  induction h with
  | fresh => exact ⟨List.nodup_nil, fun x hx => absurd hx (List.not_mem_nil x), Nat.zero_le _⟩
  | lookup key now _ ih => exact l1Lookup_inv _ key now ih
  | insert key e _ ih => exact l1Insert_inv _ key e ih
  | invalidate key _ ih => exact l1Invalidate_inv _ key ih

theorem l1_reached_map_length {st : L1State} (h : L1Reached st) :
    st.map.length ≤ L1_MAX_ENTRIES := by
  obtain ⟨hn, hs, hl⟩ := l1_reached_inv h
  exact le_trans (length_le_of_keysNodup_subset hn hs) hl

/-! ### L2 invariant -/

/-- L2 well-formedness: `p_target` in range, live lists within capacity, every
live key tracked by `t1` or `t2`, distinct map keys, bounded ghost lists. -/
def L2Inv (st : L2State) : Prop :=
  st.p_target ≤ L2_MAX_ITEMS ∧
  st.t1.length + st.t2.length ≤ L2_MAX_ITEMS ∧
  (∀ x ∈ mapKeys st.map, x ∈ st.t1 ∨ x ∈ st.t2) ∧
  KeysNodup st.map ∧
  st.b1.length ≤ L2_MAX_ITEMS ∧ st.b2.length ≤ L2_MAX_ITEMS

theorem trimGhost_length {b : List Key} (k : Key) (h : b.length ≤ L2_MAX_ITEMS) :
    (trimGhost (b ++ [k])).length ≤ L2_MAX_ITEMS := by
  unfold trimGhost
  by_cases hgt : (b ++ [k]).length > L2_MAX_ITEMS
  · rw [if_pos hgt]
    simp only [List.length_tail, List.length_append, List.length_singleton]
    omega
  · rw [if_neg hgt]
    exact Nat.le_of_not_lt hgt

/-- `replace` on a state whose `t1` wins the eviction decision. -/
theorem l2Replace_t1_branch {st : L2State} (key : Key) {k : Key} {rest : List Key}
    (ht1 : st.t1 = k :: rest)
    (hcond : st.t1.length > st.p_target ∨
      (key ∈ st.b2 ∧ st.t1.length = st.p_target)) :
    l2Replace st key =
      { st with t1 := rest, map := mapRemove st.map k,
                b1 := trimGhost (st.b1 ++ [k]) } := by
  unfold l2Replace
  rw [if_pos ⟨by simp [ht1], hcond⟩, ht1]

/-- `replace` on a state where the decision falls to `t2`. -/
theorem l2Replace_t2_branch {st : L2State} (key : Key) {k : Key} {rest : List Key}
    (hnc : ¬(st.t1.length > 0 ∧ (st.t1.length > st.p_target ∨
      (key ∈ st.b2 ∧ st.t1.length = st.p_target))))
    (ht2 : st.t2 = k :: rest) :
    l2Replace st key =
      { st with t2 := rest, map := mapRemove st.map k,
                b2 := trimGhost (st.b2 ++ [k]) } := by
  unfold l2Replace
  rw [if_neg hnc, ht2]

theorem l2Replace_p (st : L2State) (key : Key) :
    (l2Replace st key).p_target = st.p_target := by
  obtain ⟨t1, t2, b1, b2, m, p⟩ := st
  unfold l2Replace
  by_cases h : (t1.length > 0 ∧ (t1.length > p ∨ (key ∈ b2 ∧ t1.length = p)))
  · rw [if_pos h]; cases t1 <;> rfl
  · rw [if_neg h]; cases t2 <;> rfl

theorem l2Replace_sum_le (st : L2State) (key : Key) :
    (l2Replace st key).t1.length + (l2Replace st key).t2.length ≤
      st.t1.length + st.t2.length := by
  obtain ⟨t1, t2, b1, b2, m, p⟩ := st
  unfold l2Replace
  by_cases h : (t1.length > 0 ∧ (t1.length > p ∨ (key ∈ b2 ∧ t1.length = p)))
  · rw [if_pos h]; cases t1 <;> simp
  · rw [if_neg h]; cases t2 <;> simp

/-- Under the loop guard, and with `p_target` in range, each `replace` call
shrinks `t1.length + t2.length` by exactly one. -/
theorem l2Replace_sum_lt {st : L2State} (key : Key)
    (hp : st.p_target ≤ L2_MAX_ITEMS)
    (hgt : st.t1.length + st.t2.length > L2_MAX_ITEMS) :
    (l2Replace st key).t1.length + (l2Replace st key).t2.length + 1 =
      st.t1.length + st.t2.length := by
  obtain ⟨t1, t2, b1, b2, m, p⟩ := st
  simp only at hp hgt
  unfold l2Replace
  by_cases h : (t1.length > 0 ∧ (t1.length > p ∨ (key ∈ b2 ∧ t1.length = p)))
  · rw [if_pos h]
    cases t1 with
    | nil => simp at h
    | cons a as => simp only [List.length_cons]; omega
  · rw [if_neg h]
    cases t2 with
    | nil =>
      exfalso
      simp only [List.length_nil, Nat.add_zero] at hgt
      exact h ⟨by omega, Or.inl (by omega)⟩
    | cons a as => simp only [List.length_cons]; omega

theorem l2Replace_subset {st : L2State} (key : Key)
    (hs : ∀ x ∈ mapKeys st.map, x ∈ st.t1 ∨ x ∈ st.t2) :
    ∀ x ∈ mapKeys (l2Replace st key).map,
      x ∈ (l2Replace st key).t1 ∨ x ∈ (l2Replace st key).t2 := by
  obtain ⟨t1, t2, b1, b2, m, p⟩ := st
  unfold l2Replace
  by_cases h : (t1.length > 0 ∧ (t1.length > p ∨ (key ∈ b2 ∧ t1.length = p)))
  · rw [if_pos h]
    cases t1 with
    | nil => exact hs
    | cons a as =>
      intro x hx
      obtain ⟨hx1, hx2⟩ := mem_keys_mapRemove hx
      rcases hs x hx1 with hx3 | hx3
      · rcases List.mem_cons.mp hx3 with hx4 | hx4
        · exact absurd hx4 hx2
        · exact Or.inl hx4
      · exact Or.inr hx3
  · rw [if_neg h]
    cases t2 with
    | nil => exact hs
    | cons a as =>
      intro x hx
      obtain ⟨hx1, hx2⟩ := mem_keys_mapRemove hx
      rcases hs x hx1 with hx3 | hx3
      · exact Or.inl hx3
      · rcases List.mem_cons.mp hx3 with hx4 | hx4
        · exact absurd hx4 hx2
        · exact Or.inr hx4

theorem l2Replace_nodup {st : L2State} (key : Key) (hn : KeysNodup st.map) :
    KeysNodup (l2Replace st key).map := by
  obtain ⟨t1, t2, b1, b2, m, p⟩ := st
  unfold l2Replace
  by_cases h : (t1.length > 0 ∧ (t1.length > p ∨ (key ∈ b2 ∧ t1.length = p)))
  · rw [if_pos h]; cases t1 with
    | nil => exact hn
    | cons a as => exact keysNodup_mapRemove a hn
  · rw [if_neg h]; cases t2 with
    | nil => exact hn
    | cons a as => exact keysNodup_mapRemove a hn

theorem l2Replace_ghosts {st : L2State} (key : Key)
    (hb1 : st.b1.length ≤ L2_MAX_ITEMS) (hb2 : st.b2.length ≤ L2_MAX_ITEMS) :
    (l2Replace st key).b1.length ≤ L2_MAX_ITEMS ∧
      (l2Replace st key).b2.length ≤ L2_MAX_ITEMS := by
  obtain ⟨t1, t2, b1, b2, m, p⟩ := st
  unfold l2Replace
  by_cases h : (t1.length > 0 ∧ (t1.length > p ∨ (key ∈ b2 ∧ t1.length = p)))
  · rw [if_pos h]; cases t1 with
    | nil => exact ⟨hb1, hb2⟩
    | cons a as => exact ⟨trimGhost_length a hb1, hb2⟩
  · rw [if_neg h]; cases t2 with
    | nil => exact ⟨hb1, hb2⟩
    | cons a as => exact ⟨hb1, trimGhost_length a hb2⟩

theorem l2ReplaceLoop_p (key : Key) (fuel : Nat) (st : L2State) :
    (l2ReplaceLoop key fuel st).p_target = st.p_target := by
  induction fuel generalizing st with
  | zero => rfl
  | succ fuel ih =>
    simp only [l2ReplaceLoop]
    by_cases h : st.t1.length + st.t2.length > L2_MAX_ITEMS
    · rw [if_pos h, ih, l2Replace_p]
    · rw [if_neg h]

theorem l2ReplaceLoop_pres (key : Key) (fuel : Nat) (st : L2State)
    (hs : ∀ x ∈ mapKeys st.map, x ∈ st.t1 ∨ x ∈ st.t2)
    (hn : KeysNodup st.map)
    (hb1 : st.b1.length ≤ L2_MAX_ITEMS) (hb2 : st.b2.length ≤ L2_MAX_ITEMS) :
    (∀ x ∈ mapKeys (l2ReplaceLoop key fuel st).map,
        x ∈ (l2ReplaceLoop key fuel st).t1 ∨ x ∈ (l2ReplaceLoop key fuel st).t2) ∧
      KeysNodup (l2ReplaceLoop key fuel st).map ∧
      (l2ReplaceLoop key fuel st).b1.length ≤ L2_MAX_ITEMS ∧
      (l2ReplaceLoop key fuel st).b2.length ≤ L2_MAX_ITEMS := by
  induction fuel generalizing st with
  | zero => exact ⟨hs, hn, hb1, hb2⟩
  | succ fuel ih =>
    simp only [l2ReplaceLoop]
    by_cases h : st.t1.length + st.t2.length > L2_MAX_ITEMS
    · rw [if_pos h]
      exact ih _ (l2Replace_subset key hs) (l2Replace_nodup key hn)
        (l2Replace_ghosts key hb1 hb2).1 (l2Replace_ghosts key hb1 hb2).2
    · rw [if_neg h]
      exact ⟨hs, hn, hb1, hb2⟩

/-- With `p_target` in range and enough fuel, the rebalancing loop lands at or
below capacity — exactly the Rust loop's postcondition. -/
theorem l2ReplaceLoop_sum (key : Key) (fuel : Nat) (st : L2State)
    (hp : st.p_target ≤ L2_MAX_ITEMS)
    (hfuel : st.t1.length + st.t2.length ≤ L2_MAX_ITEMS + fuel) :
    (l2ReplaceLoop key fuel st).t1.length +
      (l2ReplaceLoop key fuel st).t2.length ≤ L2_MAX_ITEMS := by
  induction fuel generalizing st with
  | zero => simpa using hfuel
  | succ fuel ih =>
    simp only [l2ReplaceLoop]
    by_cases h : st.t1.length + st.t2.length > L2_MAX_ITEMS
    · rw [if_pos h]
      apply ih
      · rw [l2Replace_p]; exact hp
      · have := l2Replace_sum_lt key hp h
        omega
    · rw [if_neg h]
      exact Nat.le_of_not_lt h

theorem l2Touch_p (st : L2State) (key : Key) :
    (l2Touch st key).p_target = st.p_target := by
  unfold l2Touch
  by_cases h1 : key ∈ st.t1
  · rw [if_pos h1]
  · rw [if_neg h1]
    by_cases h2 : key ∈ st.t2
    · rw [if_pos h2]
    · rw [if_neg h2]
      exact l2ReplaceLoop_p key _ _

theorem l2Touch_sum {st : L2State} (key : Key)
    (hp : st.p_target ≤ L2_MAX_ITEMS)
    (hsum : st.t1.length + st.t2.length ≤ L2_MAX_ITEMS) :
    (l2Touch st key).t1.length + (l2Touch st key).t2.length ≤ L2_MAX_ITEMS := by
  unfold l2Touch
  by_cases h1 : key ∈ st.t1
  · rw [if_pos h1]
    have := List.length_erase_of_mem h1
    have h0 : 0 < st.t1.length := List.length_pos.mpr (List.ne_nil_of_mem h1)
    simp only [List.length_append, List.length_singleton]
    omega
  · rw [if_neg h1]
    by_cases h2 : key ∈ st.t2
    · rw [if_pos h2]
      have := List.length_erase_of_mem h2
      have h0 : 0 < st.t2.length := List.length_pos.mpr (List.ne_nil_of_mem h2)
      simp only [List.length_append, List.length_singleton]
      omega
    · rw [if_neg h2]
      exact l2ReplaceLoop_sum key _ _ hp (by simp)

theorem l2Touch_pres {st : L2State} (key : Key)
    (hs : ∀ x ∈ mapKeys st.map, x ∈ st.t1 ∨ x ∈ st.t2 ∨ x = key)
    (hn : KeysNodup st.map)
    (hb1 : st.b1.length ≤ L2_MAX_ITEMS) (hb2 : st.b2.length ≤ L2_MAX_ITEMS) :
    (∀ x ∈ mapKeys (l2Touch st key).map,
        x ∈ (l2Touch st key).t1 ∨ x ∈ (l2Touch st key).t2) ∧
      KeysNodup (l2Touch st key).map ∧
      (l2Touch st key).b1.length ≤ L2_MAX_ITEMS ∧
      (l2Touch st key).b2.length ≤ L2_MAX_ITEMS := by
  unfold l2Touch
  by_cases h1 : key ∈ st.t1
  · rw [if_pos h1]
    refine ⟨?_, hn, hb1, hb2⟩
    intro x hx
    rcases hs x hx with hx1 | hx1 | hx1
    · by_cases hxk : x = key
      · exact Or.inr (List.mem_append.mpr (Or.inr (by simp [hxk])))
      · exact Or.inl ((List.mem_erase_of_ne hxk).mpr hx1)
    · exact Or.inr (List.mem_append.mpr (Or.inl hx1))
    · exact Or.inr (List.mem_append.mpr (Or.inr (by simp [hx1])))
  · rw [if_neg h1]
    by_cases h2 : key ∈ st.t2
    · rw [if_pos h2]
      refine ⟨?_, hn, hb1, hb2⟩
      intro x hx
      rcases hs x hx with hx1 | hx1 | hx1
      · exact Or.inl hx1
      · by_cases hxk : x = key
        · exact Or.inr (List.mem_append.mpr (Or.inr (by simp [hxk])))
        · exact Or.inr (List.mem_append.mpr (Or.inl ((List.mem_erase_of_ne hxk).mpr hx1)))
      · exact Or.inr (List.mem_append.mpr (Or.inr (by simp [hx1])))
    · rw [if_neg h2]
      apply l2ReplaceLoop_pres
      · intro x hx
        rcases hs x hx with hx1 | hx1 | hx1
        · exact Or.inl (List.mem_append.mpr (Or.inl hx1))
        · exact Or.inr hx1
        · exact Or.inl (List.mem_append.mpr (Or.inr (by simp [hx1])))
      · exact hn
      · exact hb1
      · exact hb2

/-! ### Operation characterizations (one equation per control-flow path) -/

theorem l1Lookup_expired_eq {st : L1State} {key : Key} {now : Nat} {e : Entry}
    (hf : mapFind st.map key = some e) (he : e.isExpired now = true) :
    l1Lookup st key now = (.err .Expired, { st with map := mapRemove st.map key }) := by
  unfold l1Lookup
  rw [hf]
  simp [he]

theorem l1Lookup_ok_eq {st : L1State} {key : Key} {now : Nat} {e : Entry}
    (hf : mapFind st.map key = some e) (he : e.isExpired now = false) :
    l1Lookup st key now = (.ok e, st) := by
  unfold l1Lookup
  rw [hf]
  simp [he]

theorem l1Lookup_miss_eq {st : L1State} {key : Key} (now : Nat)
    (hf : mapFind st.map key = none) :
    l1Lookup st key now = (.err .NotFound, st) := by
  unfold l1Lookup
  rw [hf]

theorem l3Lookup_expired_eq {st : L3State} {key : Key} {now : Nat} {e : Entry}
    (hf : mapFind st key = some e) (he : e.isExpired now = true) :
    l3Lookup st key now = (.err .Expired, mapRemove st key) := by
  unfold l3Lookup
  rw [hf]
  simp [he]

theorem l3Lookup_ok_eq {st : L3State} {key : Key} {now : Nat} {e : Entry}
    (hf : mapFind st key = some e) (he : e.isExpired now = false) :
    l3Lookup st key now = (.ok e, st) := by
  unfold l3Lookup
  rw [hf]
  simp [he]

theorem l3Lookup_miss_eq {st : L3State} {key : Key} (now : Nat)
    (hf : mapFind st key = none) :
    l3Lookup st key now = (.err .NotFound, st) := by
  unfold l3Lookup
  rw [hf]

theorem l2Lookup_expired_eq {st : L2State} {key : Key} {now : Nat} {e : Entry}
    (hf : mapFind st.map key = some e) (he : e.isExpired now = true) :
    l2Lookup st key now = (.err .Expired, { st with map := mapRemove st.map key }) := by
  unfold l2Lookup
  rw [hf]
  simp [he]

theorem l2Lookup_ok_eq {st : L2State} {key : Key} {now : Nat} {e : Entry}
    (hf : mapFind st.map key = some e) (he : e.isExpired now = false) :
    l2Lookup st key now = (.ok e, l2Touch st key) := by
  unfold l2Lookup
  rw [hf]
  simp [he]

theorem l2Lookup_miss_eq {st : L2State} {key : Key} (now : Nat)
    (hf : mapFind st.map key = none) :
    l2Lookup st key now =
      (.err .NotFound,
        { st with p_target :=
            if key ∈ st.b1 then min L2_MAX_ITEMS (st.p_target + 1)
            else if key ∈ st.b2 then st.p_target - 1
            else st.p_target }) := by
  unfold l2Lookup
  rw [hf]
  by_cases h1 : key ∈ st.b1
  · simp [h1]
  · by_cases h2 : key ∈ st.b2 <;> simp [h1, h2]

theorem l2Insert_toolarge_eq {st : L2State} {key : Key} {e : Entry}
    (h : e.value.length > L2_MAX_VALUE_BYTES) :
    l2Insert st key e = (.err .TooLarge, st) := by
  unfold l2Insert
  rw [if_pos h]

theorem l2Insert_ok_eq {st : L2State} {key : Key} {e : Entry}
    (h : ¬e.value.length > L2_MAX_VALUE_BYTES) :
    l2Insert st key e =
      (.ok (),
        l2ReplaceLoop key
          ((l2InsertTouched st key e).t1.length + (l2InsertTouched st key e).t2.length)
          (l2InsertTouched st key e)) := by
  unfold l2Insert
  rw [if_neg h]

theorem l2Invalidate_eq (st : L2State) (key : Key) :
    l2Invalidate st key =
      (if mapContains st.map key then .ok () else .err .NotFound,
        { st with
          map := mapRemove st.map key
          t1 := st.t1.filter (fun x => decide (x ≠ key))
          t2 := st.t2.filter (fun x => decide (x ≠ key)) }) := by
  unfold l2Invalidate
  by_cases h : mapContains st.map key = true <;> simp [h]

/-! ### L2 invariant preservation -/

theorem l2Lookup_inv (st : L2State) (key : Key) (now : Nat) (h : L2Inv st) :
    L2Inv (l2Lookup st key now).2 := by
  obtain ⟨hp, hsum, hs, hn, hb1, hb2⟩ := h
  cases hf : mapFind st.map key with
  | some e =>
    by_cases he : e.isExpired now = true
    · rw [l2Lookup_expired_eq hf he]
      exact ⟨hp, hsum, fun x hx => hs x (mem_keys_mapRemove hx).1,
        keysNodup_mapRemove key hn, hb1, hb2⟩
    · rw [l2Lookup_ok_eq hf (Bool.not_eq_true _ ▸ he)]
      have hpres := l2Touch_pres key
        (fun x hx => (hs x hx).imp id Or.inl) hn hb1 hb2
      exact ⟨(l2Touch_p st key) ▸ hp, l2Touch_sum key hp hsum,
        hpres.1, hpres.2.1, hpres.2.2.1, hpres.2.2.2⟩
  | none =>
    rw [l2Lookup_miss_eq now hf]
    refine ⟨?_, hsum, hs, hn, hb1, hb2⟩
    by_cases h1 : key ∈ st.b1
    · simp [h1]
    · by_cases h2 : key ∈ st.b2 <;> simp [h1, h2] <;> omega

theorem l2Insert_inv (st : L2State) (key : Key) (e : Entry) (h : L2Inv st) :
    L2Inv (l2Insert st key e).2 := by
  obtain ⟨hp, hsum, hs, hn, hb1, hb2⟩ := h
  by_cases hbig : e.value.length > L2_MAX_VALUE_BYTES
  · rw [l2Insert_toolarge_eq hbig]
    exact ⟨hp, hsum, hs, hn, hb1, hb2⟩
  · rw [l2Insert_ok_eq hbig]
    have hsM : ∀ x ∈ mapKeys (mapInsert st.map key (l2Stored e)),
        x ∈ st.t1 ∨ x ∈ st.t2 ∨ x = key := by
      intro x hx
      rcases mem_keys_mapInsert hx with hx1 | hx1
      · exact Or.inr (Or.inr hx1)
      · exact (hs x hx1).imp id Or.inl
    have hpres := @l2Touch_pres { st with map := mapInsert st.map key (l2Stored e) }
      key hsM (keysNodup_mapInsert key (l2Stored e) hn) hb1 hb2
    rw [show l2Touch { st with map := mapInsert st.map key (l2Stored e) } key =
        l2InsertTouched st key e from rfl] at hpres
    have hp1 : (l2InsertTouched st key e).p_target = st.p_target :=
      l2Touch_p { st with map := mapInsert st.map key (l2Stored e) } key
    have hloop := l2ReplaceLoop_pres key
      ((l2InsertTouched st key e).t1.length + (l2InsertTouched st key e).t2.length)
      (l2InsertTouched st key e) hpres.1 hpres.2.1 hpres.2.2.1 hpres.2.2.2
    refine ⟨?_, ?_, hloop.1, hloop.2.1, hloop.2.2.1, hloop.2.2.2⟩
    · rw [l2ReplaceLoop_p, hp1]; exact hp
    · exact l2ReplaceLoop_sum key _ _ (hp1 ▸ hp) (by simp)

theorem l2Invalidate_inv (st : L2State) (key : Key) (h : L2Inv st) :
    L2Inv (l2Invalidate st key).2 := by
  obtain ⟨hp, hsum, hs, hn, hb1, hb2⟩ := h
  rw [l2Invalidate_eq]
  refine ⟨hp, ?_, ?_, keysNodup_mapRemove key hn, hb1, hb2⟩
  · have h1 := List.length_filter_le (fun x => decide (x ≠ key)) st.t1
    have h2 := List.length_filter_le (fun x => decide (x ≠ key)) st.t2
    simp only []
    omega
  · intro x hx
    obtain ⟨hx1, hx2⟩ := mem_keys_mapRemove hx
    rcases hs x hx1 with hx3 | hx3
    · exact Or.inl (List.mem_filter.mpr ⟨hx3, decide_eq_true hx2⟩)
    · exact Or.inr (List.mem_filter.mpr ⟨hx3, decide_eq_true hx2⟩)

theorem l2_reached_inv {st : L2State} (h : L2Reached st) : L2Inv st := by
  induction h with
  | fresh =>
    refine ⟨?_, ?_, ?_, ?_, ?_, ?_⟩ <;>
      simp [L2.fresh, L2_MAX_ITEMS, KeysNodup, mapKeys]
  | lookup key now _ ih => exact l2Lookup_inv _ key now ih
  | insert key e _ ih => exact l2Insert_inv _ key e ih
  | invalidate key _ ih => exact l2Invalidate_inv _ key ih

theorem l2_reached_map_length {st : L2State} (h : L2Reached st) :
    st.map.length ≤ L2_MAX_ITEMS := by
  obtain ⟨hp, hsum, hs, hn, hb1, hb2⟩ := l2_reached_inv h
  have hsub : ∀ x ∈ mapKeys st.map, x ∈ st.t1 ++ st.t2 := by
    intro x hx
    exact List.mem_append.mpr (hs x hx)
  calc st.map.length ≤ (st.t1 ++ st.t2).length := length_le_of_keysNodup_subset hn hsub
    _ = st.t1.length + st.t2.length := List.length_append st.t1 st.t2
    _ ≤ L2_MAX_ITEMS := hsum

/-! ### Claims -/

/-- C1: for every sequence of L2 operations (lookup, insert, invalidate)
starting from a fresh L2, after each completed operation the number of live
entries in the map is at most 65536 (`t1.length + t2.length ≤ 65536` and every
live map key is in `t1` or `t2`), and `p_target` is always in `[0, 65536]`. -/
theorem c1_l2_capacity_invariant :
    ∀ st : L2State, L2Reached st →
      st.map.length ≤ 65536 ∧
      st.t1.length + st.t2.length ≤ 65536 ∧
      (∀ k ∈ mapKeys st.map, k ∈ st.t1 ∨ k ∈ st.t2) ∧
      st.p_target ≤ 65536 := by
  intro st h
  obtain ⟨hp, hsum, hs, _, _, _⟩ := l2_reached_inv h
  exact ⟨l2_reached_map_length h, hsum, hs, hp⟩

/-- C1 witness: the invariant holds concretely after an insert followed by a
lookup on a fresh L2. -/
theorem c1_l2_capacity_invariant_witness :
    L2Reached (l2Lookup (l2Insert L2.fresh [1] ⟨[7], 0, 0, 1⟩).2 [1] 0).2 ∧
      ((l2Lookup (l2Insert L2.fresh [1] ⟨[7], 0, 0, 1⟩).2 [1] 0).2.map.length ≤ 65536 ∧
        (l2Lookup (l2Insert L2.fresh [1] ⟨[7], 0, 0, 1⟩).2 [1] 0).2.t1.length +
          (l2Lookup (l2Insert L2.fresh [1] ⟨[7], 0, 0, 1⟩).2 [1] 0).2.t2.length ≤ 65536 ∧
        (∀ k ∈ mapKeys (l2Lookup (l2Insert L2.fresh [1] ⟨[7], 0, 0, 1⟩).2 [1] 0).2.map,
          k ∈ (l2Lookup (l2Insert L2.fresh [1] ⟨[7], 0, 0, 1⟩).2 [1] 0).2.t1 ∨
            k ∈ (l2Lookup (l2Insert L2.fresh [1] ⟨[7], 0, 0, 1⟩).2 [1] 0).2.t2) ∧
        (l2Lookup (l2Insert L2.fresh [1] ⟨[7], 0, 0, 1⟩).2 [1] 0).2.p_target ≤ 65536) :=
  ⟨L2Reached.lookup [1] 0 (L2Reached.insert [1] ⟨[7], 0, 0, 1⟩ L2Reached.fresh),
    c1_l2_capacity_invariant _
      (L2Reached.lookup [1] 0 (L2Reached.insert [1] ⟨[7], 0, 0, 1⟩ L2Reached.fresh))⟩

/-- C2: whenever `replace(missed_key)` runs, if `t1` is non-empty and
(`t1.len > p_target`, or `missed_key ∈ b2` and `t1.len = p_target`), the front
key of `t1` is removed from `t1` and the live map and appended to `b1` (trimmed
from the front when over 65536); otherwise the front key of `t2` is removed
from `t2` and the map and appended to `b2` (trimmed likewise); and after every
operation `b1` and `b2` each hold at most 65536 keys. -/
theorem c2_l2_replace_decision :
    (∀ (st : L2State) (missKey k : Key) (rest : List Key),
        st.t1 = k :: rest →
        (st.t1.length > st.p_target ∨
          (missKey ∈ st.b2 ∧ st.t1.length = st.p_target)) →
        l2Replace st missKey =
          { st with
            t1 := rest
            map := mapRemove st.map k
            b1 := (if (st.b1 ++ [k]).length > 65536 then (st.b1 ++ [k]).tail else st.b1 ++ [k]) }) ∧
    (∀ (st : L2State) (missKey k : Key) (rest : List Key),
        ¬(st.t1.length > 0 ∧ (st.t1.length > st.p_target ∨
            (missKey ∈ st.b2 ∧ st.t1.length = st.p_target))) →
        st.t2 = k :: rest →
        l2Replace st missKey =
          { st with
            t2 := rest
            map := mapRemove st.map k
            b2 := (if (st.b2 ++ [k]).length > 65536 then (st.b2 ++ [k]).tail else st.b2 ++ [k]) }) ∧
    (∀ st : L2State, L2Reached st →
        st.b1.length ≤ 65536 ∧ st.b2.length ≤ 65536) := by
  refine ⟨?_, ?_, ?_⟩
  · intro st missKey k rest ht1 hcond
    rw [l2Replace_t1_branch missKey ht1 hcond]
    rfl
  · intro st missKey k rest hnc ht2
    rw [l2Replace_t2_branch missKey hnc ht2]
    rfl
  · intro st h
    obtain ⟨_, _, _, _, hb1, hb2⟩ := l2_reached_inv h
    exact ⟨hb1, hb2⟩

/-- C2 witness: both eviction branches at concrete states, and the ghost bound
at the fresh state. -/
theorem c2_l2_replace_decision_witness :
    l2Replace ⟨[[1]], [], [], [], [([1], ⟨[7], 0, 0, 1⟩)], 0⟩ [9] =
        ⟨[], [], [[1]], [], [], 0⟩ ∧
    l2Replace ⟨[], [[2]], [], [], [([2], ⟨[7], 0, 0, 1⟩)], 3⟩ [9] =
        ⟨[], [], [], [[2]], [], 3⟩ ∧
    (L2.fresh).b1.length ≤ 65536 ∧ (L2.fresh).b2.length ≤ 65536 :=
  ⟨(c2_l2_replace_decision.1 ⟨[[1]], [], [], [], [([1], ⟨[7], 0, 0, 1⟩)], 0⟩
      [9] [1] [] rfl (by decide)).trans (by decide),
    (c2_l2_replace_decision.2.1 ⟨[], [[2]], [], [], [([2], ⟨[7], 0, 0, 1⟩)], 3⟩
      [9] [2] [] (by decide) rfl).trans (by decide),
    c2_l2_replace_decision.2.2 L2.fresh L2Reached.fresh⟩

/-- C3: for every key not live in L2's map, `lookup` returns `NotFound` and,
as its only side effect, `p_target` is incremented by one capped at 65536 when
the key is in `b1`, decremented by one floored at 0 when it is in `b2` (and
not `b1`), and left unchanged otherwise. -/
theorem c3_l2_ghost_tuning :
    ∀ (st : L2State) (k : Key) (now : Nat),
      mapFind st.map k = none →
      (l2Lookup st k now).1 = .err .NotFound ∧
      (l2Lookup st k now).2 =
        { st with p_target :=
            if k ∈ st.b1 then min 65536 (st.p_target + 1)
            else if k ∈ st.b2 then st.p_target - 1
            else st.p_target } := by
  intro st k now hf
  rw [l2Lookup_miss_eq now hf]
  exact ⟨rfl, rfl⟩

/-- C3 witness: ghost hit in `b1` bumps `p_target` from 3 to 4 on a concrete
state; the key stays `NotFound`. -/
theorem c3_l2_ghost_tuning_witness :
    (l2Lookup ⟨[], [], [[5]], [], [], 3⟩ [5] 0).1 = .err .NotFound ∧
    (l2Lookup ⟨[], [], [[5]], [], [], 3⟩ [5] 0).2 = ⟨[], [], [[5]], [], [], 4⟩ :=
  ⟨(c3_l2_ghost_tuning ⟨[], [], [[5]], [], [], 3⟩ [5] 0 rfl).1,
    ((c3_l2_ghost_tuning ⟨[], [], [[5]], [], [], 3⟩ [5] 0 rfl).2).trans (by decide)⟩

/-- C4 counterexample: insert key `[1]` with TTL 1 into a fresh L2, look it up
at time 5 (`Expired`, purged from the map but left in `t1`); the key now has
no live entry, yet `invalidate` — while returning `NotFound` — strips `[1]`
out of `t1`, changing the tier's state. -/
theorem c4_invalidate_counterexample :
    mapFind (l2Lookup (l2Insert L2.fresh [1] ⟨[7], 0, 0, 1⟩).2 [1] 5).2.map [1] = none ∧
    (l2Invalidate (l2Lookup (l2Insert L2.fresh [1] ⟨[7], 0, 0, 1⟩).2 [1] 5).2 [1]).1 =
      .err .NotFound ∧
    (l2Invalidate (l2Lookup (l2Insert L2.fresh [1] ⟨[7], 0, 0, 1⟩).2 [1] 5).2 [1]).2 ≠
      (l2Lookup (l2Insert L2.fresh [1] ⟨[7], 0, 0, 1⟩).2 [1] 5).2 := by
  decide

/-- C4 (amended): `invalidate` on a key with no live entry returns `NotFound`
and leaves the state unchanged in L1 and L3; in L2 it returns `NotFound`,
leaves the map, ghost lists and `p_target` unchanged, but still filters the
key out of `t1` and `t2` (an actual state change when the key lingers there
after an expired-lookup purge).  On a live key, `invalidate` returns `Ok` in
every tier and a subsequent lookup of the key returns `NotFound`. -/
theorem c4_invalidate_amended :
    (∀ (st : L1State) (k : Key), mapFind st.map k = none →
        l1Invalidate st k = (.err .NotFound, st)) ∧
    (∀ (st : L3State) (k : Key), mapFind st k = none →
        l3Invalidate st k = (.err .NotFound, st)) ∧
    (∀ (st : L2State) (k : Key), mapFind st.map k = none →
        (l2Invalidate st k).1 = .err .NotFound ∧
        (l2Invalidate st k).2 =
          { st with
            t1 := st.t1.filter (fun x => decide (x ≠ k))
            t2 := st.t2.filter (fun x => decide (x ≠ k)) }) ∧
    (∀ (st : L1State) (k : Key) (e : Entry) (now : Nat), mapFind st.map k = some e →
        (l1Invalidate st k).1 = .ok () ∧
        (l1Lookup (l1Invalidate st k).2 k now).1 = .err .NotFound) ∧
    (∀ (st : L2State) (k : Key) (e : Entry) (now : Nat), mapFind st.map k = some e →
        (l2Invalidate st k).1 = .ok () ∧
        (l2Lookup (l2Invalidate st k).2 k now).1 = .err .NotFound) ∧
    (∀ (st : L3State) (k : Key) (e : Entry) (now : Nat), mapFind st k = some e →
        (l3Invalidate st k).1 = .ok () ∧
        (l3Lookup (l3Invalidate st k).2 k now).1 = .err .NotFound) := by
  refine ⟨?_, ?_, ?_, ?_, ?_, ?_⟩
  · intro st k hf
    unfold l1Invalidate
    rw [if_neg (by simp [mapContains, hf])]
  · intro st k hf
    unfold l3Invalidate
    rw [if_neg (by simp [mapContains, hf])]
  · intro st k hf
    rw [l2Invalidate_eq]
    refine ⟨by simp [mapContains, hf], ?_⟩
    simp only [mapRemove_of_find_none hf]
  · intro st k e now hf
    have hc : mapContains st.map k = true := by simp [mapContains, hf]
    unfold l1Invalidate
    rw [if_pos hc]
    refine ⟨rfl, ?_⟩
    unfold l1Lookup
    simp only [mapFind_mapRemove_self]
  · intro st k e now hf
    have hc : mapContains st.map k = true := by simp [mapContains, hf]
    rw [l2Invalidate_eq, if_pos hc]
    refine ⟨rfl, ?_⟩
    rw [l2Lookup_miss_eq now (by simp only [mapFind_mapRemove_self])]
  · intro st k e now hf
    have hc : mapContains st k = true := by simp [mapContains, hf]
    unfold l3Invalidate
    rw [if_pos hc]
    refine ⟨rfl, ?_⟩
    unfold l3Lookup
    simp only [mapFind_mapRemove_self]

/-- C4 witness: the amended behaviour at concrete states — absent-key
invalidation on all three tiers, and live-key invalidation followed by a
`NotFound` lookup on all three tiers. -/
theorem c4_invalidate_amended_witness :
    l1Invalidate ⟨[], [[3]]⟩ [1] = (.err .NotFound, ⟨[], [[3]]⟩) ∧
    l3Invalidate [([2], ⟨[7], 0, 0, 1⟩)] [1] =
      (.err .NotFound, [([2], ⟨[7], 0, 0, 1⟩)]) ∧
    (l2Invalidate ⟨[[1]], [], [], [], [], 5⟩ [1]).1 = .err .NotFound ∧
    (l1Invalidate ⟨[([1], ⟨[7], 0, 0, 1⟩)], [[1]]⟩ [1]).1 = .ok () ∧
    (l1Lookup (l1Invalidate ⟨[([1], ⟨[7], 0, 0, 1⟩)], [[1]]⟩ [1]).2 [1] 0).1 =
      .err .NotFound ∧
    (l2Invalidate ⟨[[1]], [], [], [], [([1], ⟨[7], 0, 0, 1⟩)], 5⟩ [1]).1 = .ok () ∧
    (l2Lookup (l2Invalidate ⟨[[1]], [], [], [], [([1], ⟨[7], 0, 0, 1⟩)], 5⟩ [1]).2 [1] 0).1 =
      .err .NotFound ∧
    (l3Invalidate [([1], ⟨[7], 0, 0, 1⟩)] [1]).1 = .ok () ∧
    (l3Lookup (l3Invalidate [([1], ⟨[7], 0, 0, 1⟩)] [1]).2 [1] 0).1 = .err .NotFound :=
  ⟨c4_invalidate_amended.1 ⟨[], [[3]]⟩ [1] rfl,
    c4_invalidate_amended.2.1 [([2], ⟨[7], 0, 0, 1⟩)] [1] (by decide),
    (c4_invalidate_amended.2.2.1 ⟨[[1]], [], [], [], [], 5⟩ [1] rfl).1,
    (c4_invalidate_amended.2.2.2.1 ⟨[([1], ⟨[7], 0, 0, 1⟩)], [[1]]⟩ [1] ⟨[7], 0, 0, 1⟩ 0
      (by decide)).1,
    (c4_invalidate_amended.2.2.2.1 ⟨[([1], ⟨[7], 0, 0, 1⟩)], [[1]]⟩ [1] ⟨[7], 0, 0, 1⟩ 0
      (by decide)).2,
    (c4_invalidate_amended.2.2.2.2.1 ⟨[[1]], [], [], [], [([1], ⟨[7], 0, 0, 1⟩)], 5⟩ [1]
      ⟨[7], 0, 0, 1⟩ 0 (by decide)).1,
    (c4_invalidate_amended.2.2.2.2.1 ⟨[[1]], [], [], [], [([1], ⟨[7], 0, 0, 1⟩)], 5⟩ [1]
      ⟨[7], 0, 0, 1⟩ 0 (by decide)).2,
    (c4_invalidate_amended.2.2.2.2.2 [([1], ⟨[7], 0, 0, 1⟩)] [1] ⟨[7], 0, 0, 1⟩ 0
      (by decide)).1,
    (c4_invalidate_amended.2.2.2.2.2 [([1], ⟨[7], 0, 0, 1⟩)] [1] ⟨[7], 0, 0, 1⟩ 0
      (by decide)).2⟩

/-- C5: an entry whose value exceeds 64 MiB is rejected by L2 `insert` with
`TooLarge` and no state mutation, so when the key was not previously live a
subsequent lookup returns `NotFound`; an entry whose value is within the cap
is accepted with `Ok`. -/
theorem c5_l2_size_cap :
    (∀ (st : L2State) (k : Key) (e : Entry),
        e.value.length > 64 * 1024 * 1024 →
        l2Insert st k e = (.err .TooLarge, st)) ∧
    (∀ (st : L2State) (k : Key) (e : Entry) (now : Nat),
        e.value.length > 64 * 1024 * 1024 → mapFind st.map k = none →
        (l2Lookup (l2Insert st k e).2 k now).1 = .err .NotFound) ∧
    (∀ (st : L2State) (k : Key) (e : Entry),
        e.value.length ≤ 64 * 1024 * 1024 →
        (l2Insert st k e).1 = .ok ()) := by
  refine ⟨?_, ?_, ?_⟩
  · intro st k e hbig
    exact l2Insert_toolarge_eq hbig
  · intro st k e now hbig hf
    rw [l2Insert_toolarge_eq hbig]
    rw [l2Lookup_miss_eq now hf]
  · intro st k e hsmall
    rw [l2Insert_ok_eq (show ¬e.value.length > L2_MAX_VALUE_BYTES by
      unfold L2_MAX_VALUE_BYTES; omega)]

/-- C5 witness: a 65 MiB value under the spec's scenario key `"big"`
(bytes `[98, 105, 103]`) is rejected on a fresh L2 and then not found, while a
one-byte value is accepted. -/
theorem c5_l2_size_cap_witness :
    l2Insert L2.fresh [98, 105, 103] ⟨List.replicate (65 * 1024 * 1024) 0, 0, 0, 60⟩ =
      (.err .TooLarge, L2.fresh) ∧
    (l2Lookup (l2Insert L2.fresh [98, 105, 103]
        ⟨List.replicate (65 * 1024 * 1024) 0, 0, 0, 60⟩).2 [98, 105, 103] 0).1 =
      .err .NotFound ∧
    (l2Insert L2.fresh [1] ⟨[7], 0, 0, 60⟩).1 = .ok () :=
  ⟨c5_l2_size_cap.1 L2.fresh [98, 105, 103] ⟨List.replicate (65 * 1024 * 1024) 0, 0, 0, 60⟩
      (by show (List.replicate (65 * 1024 * 1024) (0:Nat)).length > 64 * 1024 * 1024
          rw [List.length_replicate]; decide),
    c5_l2_size_cap.2.1 L2.fresh [98, 105, 103] ⟨List.replicate (65 * 1024 * 1024) 0, 0, 0, 60⟩
      0 (by show (List.replicate (65 * 1024 * 1024) (0:Nat)).length > 64 * 1024 * 1024
            rw [List.length_replicate]; decide) rfl,
    c5_l2_size_cap.2.2 L2.fresh [1] ⟨[7], 0, 0, 60⟩ (by decide)⟩

/-- C6: in every tier, looking up a live key whose TTL has elapsed
(`now - created_at > ttl`) returns `Expired` and removes the entry from the
map, and an immediately following lookup of that key returns `NotFound`, not
`Expired`. -/
theorem c6_lazy_expiration :
    (∀ (st : L1State) (k : Key) (e : Entry) (now now2 : Nat),
        mapFind st.map k = some e → now - e.ts > e.ttl →
        (l1Lookup st k now).1 = .err .Expired ∧
        mapFind (l1Lookup st k now).2.map k = none ∧
        (l1Lookup (l1Lookup st k now).2 k now2).1 = .err .NotFound) ∧
    (∀ (st : L2State) (k : Key) (e : Entry) (now now2 : Nat),
        mapFind st.map k = some e → now - e.ts > e.ttl →
        (l2Lookup st k now).1 = .err .Expired ∧
        mapFind (l2Lookup st k now).2.map k = none ∧
        (l2Lookup (l2Lookup st k now).2 k now2).1 = .err .NotFound) ∧
    (∀ (st : L3State) (k : Key) (e : Entry) (now now2 : Nat),
        mapFind st k = some e → now - e.ts > e.ttl →
        (l3Lookup st k now).1 = .err .Expired ∧
        mapFind (l3Lookup st k now).2 k = none ∧
        (l3Lookup (l3Lookup st k now).2 k now2).1 = .err .NotFound) := by
  refine ⟨?_, ?_, ?_⟩
  · intro st k e now now2 hf he
    have hexp : e.isExpired now = true := decide_eq_true he
    rw [l1Lookup_expired_eq hf hexp]
    refine ⟨rfl, mapFind_mapRemove_self st.map k, ?_⟩
    rw [l1Lookup_miss_eq now2 (by simp only [mapFind_mapRemove_self])]
  · intro st k e now now2 hf he
    have hexp : e.isExpired now = true := decide_eq_true he
    rw [l2Lookup_expired_eq hf hexp]
    refine ⟨rfl, mapFind_mapRemove_self st.map k, ?_⟩
    rw [l2Lookup_miss_eq now2 (by simp only [mapFind_mapRemove_self])]
  · intro st k e now now2 hf he
    have hexp : e.isExpired now = true := decide_eq_true he
    rw [l3Lookup_expired_eq hf hexp]
    refine ⟨rfl, mapFind_mapRemove_self st k, ?_⟩
    rw [l3Lookup_miss_eq now2 (mapFind_mapRemove_self st k)]

/-- C6 witness: the expire-then-purge double lookup on all three tiers, for an
entry inserted at time 0 with TTL 1 and looked up at time 5. -/
theorem c6_lazy_expiration_witness :
    (l1Lookup ⟨[([1], ⟨[7], 0, 0, 1⟩)], [[1]]⟩ [1] 5).1 = .err .Expired ∧
    (l1Lookup (l1Lookup ⟨[([1], ⟨[7], 0, 0, 1⟩)], [[1]]⟩ [1] 5).2 [1] 5).1 = .err .NotFound ∧
    (l2Lookup ⟨[[1]], [], [], [], [([1], ⟨[7], 0, 0, 1⟩)], 5⟩ [1] 5).1 = .err .Expired ∧
    (l2Lookup (l2Lookup ⟨[[1]], [], [], [], [([1], ⟨[7], 0, 0, 1⟩)], 5⟩ [1] 5).2 [1] 5).1 =
      .err .NotFound ∧
    (l3Lookup [([1], ⟨[7], 0, 0, 1⟩)] [1] 5).1 = .err .Expired ∧
    (l3Lookup (l3Lookup [([1], ⟨[7], 0, 0, 1⟩)] [1] 5).2 [1] 5).1 = .err .NotFound :=
  ⟨(c6_lazy_expiration.1 ⟨[([1], ⟨[7], 0, 0, 1⟩)], [[1]]⟩ [1] ⟨[7], 0, 0, 1⟩ 5 5
      (by decide) (by decide)).1,
    (c6_lazy_expiration.1 ⟨[([1], ⟨[7], 0, 0, 1⟩)], [[1]]⟩ [1] ⟨[7], 0, 0, 1⟩ 5 5
      (by decide) (by decide)).2.2,
    (c6_lazy_expiration.2.1 ⟨[[1]], [], [], [], [([1], ⟨[7], 0, 0, 1⟩)], 5⟩ [1]
      ⟨[7], 0, 0, 1⟩ 5 5 (by decide) (by decide)).1,
    (c6_lazy_expiration.2.1 ⟨[[1]], [], [], [], [([1], ⟨[7], 0, 0, 1⟩)], 5⟩ [1]
      ⟨[7], 0, 0, 1⟩ 5 5 (by decide) (by decide)).2.2,
    (c6_lazy_expiration.2.2 [([1], ⟨[7], 0, 0, 1⟩)] [1] ⟨[7], 0, 0, 1⟩ 5 5
      (by decide) (by decide)).1,
    (c6_lazy_expiration.2.2 [([1], ⟨[7], 0, 0, 1⟩)] [1] ⟨[7], 0, 0, 1⟩ 5 5
      (by decide) (by decide)).2.2⟩

/-! ### The eviction machinery only ever removes map bindings -/

theorem find_some_of_mapRemove {m : List (Key × Entry)} {a k : Key} {v : Entry}
    (h : mapFind (mapRemove m a) k = some v) : mapFind m k = some v := by
  by_cases hak : a = k
  · subst hak
    rw [mapFind_mapRemove_self] at h
    exact Option.noConfusion h
  · rwa [mapFind_mapRemove_ne m hak] at h

theorem l1EvictLoop_find_sub {o : List Key} {m : List (Key × Entry)} {k : Key}
    {v : Entry} (h : mapFind (l1EvictLoop o m).2 k = some v) :
    mapFind m k = some v := by
  induction o generalizing m with
  | nil => exact h
  | cons a rest ih =>
    simp only [l1EvictLoop] at h
    by_cases hgt : (a :: rest).length > L1_MAX_ENTRIES
    · rw [if_pos hgt] at h
      exact find_some_of_mapRemove (ih h)
    · rwa [if_neg hgt] at h

theorem l2Replace_find_sub {st : L2State} {key k : Key} {v : Entry}
    (h : mapFind (l2Replace st key).map k = some v) :
    mapFind st.map k = some v := by
  obtain ⟨t1, t2, b1, b2, m, p⟩ := st
  unfold l2Replace at h
  by_cases hc : (t1.length > 0 ∧ (t1.length > p ∨ (key ∈ b2 ∧ t1.length = p)))
  · rw [if_pos hc] at h
    cases t1 with
    | nil => exact h
    | cons a as => exact find_some_of_mapRemove h
  · rw [if_neg hc] at h
    cases t2 with
    | nil => exact h
    | cons a as => exact find_some_of_mapRemove h

theorem l2ReplaceLoop_find_sub {key : Key} {fuel : Nat} {st : L2State} {k : Key}
    {v : Entry} (h : mapFind (l2ReplaceLoop key fuel st).map k = some v) :
    mapFind st.map k = some v := by
  induction fuel generalizing st with
  | zero => exact h
  | succ fuel ih =>
    simp only [l2ReplaceLoop] at h
    by_cases hgt : st.t1.length + st.t2.length > L2_MAX_ITEMS
    · rw [if_pos hgt] at h
      exact l2Replace_find_sub (ih h)
    · rwa [if_neg hgt] at h

theorem l2Touch_find_sub {st : L2State} {key k : Key} {v : Entry}
    (h : mapFind (l2Touch st key).map k = some v) :
    mapFind st.map k = some v := by
  unfold l2Touch at h
  by_cases h1 : key ∈ st.t1
  · rwa [if_pos h1] at h
  · rw [if_neg h1] at h
    by_cases h2 : key ∈ st.t2
    · rwa [if_pos h2] at h
    · rw [if_neg h2] at h
      exact @l2ReplaceLoop_find_sub key _ { st with t1 := st.t1 ++ [key] } k v h

/-- C7: in every tier, after a successful insert of entry `e` under key `k`,
if the entry is still live (not evicted by the insert's own capacity
enforcement) then it carries `e`'s bytes and flags unchanged, and an immediate
lookup before the TTL elapses returns it with `Ok`. -/
theorem c7_insert_lookup_roundtrip :
    (∀ (st : L1State) (k : Key) (e : Entry) (now : Nat),
        (l1Insert st k e).1 = .ok () ∧
        ∀ e2 : Entry, mapFind (l1Insert st k e).2.map k = some e2 →
          e2.value = e.value ∧ e2.flags = e.flags ∧
          (e2.isExpired now = false → (l1Lookup (l1Insert st k e).2 k now).1 = .ok e2)) ∧
    (∀ (st : L2State) (k : Key) (e : Entry) (now : Nat),
        (l2Insert st k e).1 = .ok () →
        ∀ e2 : Entry, mapFind (l2Insert st k e).2.map k = some e2 →
          e2.value = e.value ∧ e2.flags = e.flags ∧
          (e2.isExpired now = false → (l2Lookup (l2Insert st k e).2 k now).1 = .ok e2)) ∧
    (∀ (st : L3State) (k : Key) (e : Entry) (now : Nat),
        (l3Insert st k e).1 = .ok () ∧
        mapFind (l3Insert st k e).2 k = some e ∧
        (e.isExpired now = false → (l3Lookup (l3Insert st k e).2 k now).1 = .ok e)) := by
  refine ⟨?_, ?_, ?_⟩
  · intro st k e now
    refine ⟨rfl, ?_⟩
    intro e2 hf
    rw [l1Insert_state] at hf
    have h1 : mapFind (mapInsert st.map k e) k = some e2 := l1EvictLoop_find_sub hf
    rw [mapFind_mapInsert_self] at h1
    obtain rfl : e = e2 := Option.some.inj h1
    refine ⟨rfl, rfl, ?_⟩
    intro hexp
    rw [l1Lookup_ok_eq (l1Insert_state st k e ▸ hf) hexp]
  · intro st k e now hok
    by_cases hbig : e.value.length > L2_MAX_VALUE_BYTES
    · rw [l2Insert_toolarge_eq hbig] at hok
      exact absurd hok (by simp)
    · intro e2 hf
      rw [l2Insert_ok_eq hbig] at hf
      have h1 : mapFind (mapInsert st.map k (l2Stored e)) k = some e2 :=
        l2Touch_find_sub (l2ReplaceLoop_find_sub hf)
      rw [mapFind_mapInsert_self] at h1
      obtain rfl : l2Stored e = e2 := Option.some.inj h1
      refine ⟨rfl, rfl, ?_⟩
      intro hexp
      rw [l2Insert_ok_eq hbig]
      rw [l2Lookup_ok_eq hf hexp]
  · intro st k e now
    refine ⟨rfl, mapFind_mapInsert_self st k e, ?_⟩
    intro hexp
    exact congrArg Prod.fst (l3Lookup_ok_eq (mapFind_mapInsert_self st k e) hexp)

/-- C7 witness: insert-then-lookup on fresh instances of all three tiers
returns the stored entry with the inserted bytes and flags. -/
theorem c7_insert_lookup_roundtrip_witness :
    (l1Lookup (l1Insert L1.fresh [1] ⟨[7], 2, 0, 10⟩).2 [1] 3).1 = .ok ⟨[7], 2, 0, 10⟩ ∧
    (l2Lookup (l2Insert L2.fresh [1] ⟨[7], 2, 0, 10⟩).2 [1] 3).1 = .ok ⟨[7], 2, 0, 10⟩ ∧
    (l3Lookup (l3Insert L3.fresh [1] ⟨[7], 2, 0, 10⟩).2 [1] 3).1 = .ok ⟨[7], 2, 0, 10⟩ :=
  ⟨((c7_insert_lookup_roundtrip.1 L1.fresh [1] ⟨[7], 2, 0, 10⟩ 3).2
      ⟨[7], 2, 0, 10⟩ (by decide)).2.2 (by decide),
    ((c7_insert_lookup_roundtrip.2.1 L2.fresh [1] ⟨[7], 2, 0, 10⟩ 3 (by decide))
      ⟨[7], 2, 0, 10⟩ (by decide)).2.2 (by decide),
    (c7_insert_lookup_roundtrip.2.2 L3.fresh [1] ⟨[7], 2, 0, 10⟩ 3).2.2 (by decide)⟩

/-- C9: an `Expired` L2 lookup removes the key from the map only — `t1`, `t2`,
the ghost lists and `p_target` are untouched, so the key keeps its `t1`/`t2`
slot in the capacity accounting; and when `replace` later evicts such a stale
key, it removes nothing live (the map is unchanged) yet still appends the key
to the matching ghost list. -/
theorem c9_expired_purge_keeps_slot :
    (∀ (st : L2State) (k : Key) (e : Entry) (now : Nat),
        mapFind st.map k = some e → now - e.ts > e.ttl →
        (l2Lookup st k now).1 = .err .Expired ∧
        (l2Lookup st k now).2 = { st with map := mapRemove st.map k }) ∧
    (∀ (st : L2State) (missKey k : Key) (rest : List Key),
        st.t1 = k :: rest → mapFind st.map k = none →
        (st.t1.length > st.p_target ∨
          (missKey ∈ st.b2 ∧ st.t1.length = st.p_target)) →
        l2Replace st missKey =
          { st with t1 := rest, b1 := trimGhost (st.b1 ++ [k]) }) ∧
    (∀ (st : L2State) (missKey k : Key) (rest : List Key),
        ¬(st.t1.length > 0 ∧ (st.t1.length > st.p_target ∨
            (missKey ∈ st.b2 ∧ st.t1.length = st.p_target))) →
        st.t2 = k :: rest → mapFind st.map k = none →
        l2Replace st missKey =
          { st with t2 := rest, b2 := trimGhost (st.b2 ++ [k]) }) := by
  refine ⟨?_, ?_, ?_⟩
  · intro st k e now hf he
    rw [l2Lookup_expired_eq hf (decide_eq_true he)]
    exact ⟨rfl, rfl⟩
  · intro st missKey k rest ht1 hf hcond
    rw [l2Replace_t1_branch missKey ht1 hcond, mapRemove_of_find_none hf]
  · intro st missKey k rest hnc ht2 hf
    rw [l2Replace_t2_branch missKey hnc ht2, mapRemove_of_find_none hf]

/-- C9 witness: an expired lookup leaves `t1` holding the stale key, and
evicting a stale front key from `t1` (resp. `t2`) leaves the map untouched
while ghosting the key into `b1` (resp. `b2`). -/
theorem c9_expired_purge_keeps_slot_witness :
    (l2Lookup ⟨[[1]], [], [], [], [([1], ⟨[7], 0, 0, 1⟩)], 5⟩ [1] 5).1 = .err .Expired ∧
    (l2Lookup ⟨[[1]], [], [], [], [([1], ⟨[7], 0, 0, 1⟩)], 5⟩ [1] 5).2 =
      ⟨[[1]], [], [], [], [], 5⟩ ∧
    l2Replace ⟨[[1]], [], [], [], [], 0⟩ [9] = ⟨[], [], [[1]], [], [], 0⟩ ∧
    l2Replace ⟨[], [[2]], [], [], [], 3⟩ [9] = ⟨[], [], [], [[2]], [], 3⟩ :=
  ⟨(c9_expired_purge_keeps_slot.1 ⟨[[1]], [], [], [], [([1], ⟨[7], 0, 0, 1⟩)], 5⟩
      [1] ⟨[7], 0, 0, 1⟩ 5 (by decide) (by decide)).1,
    ((c9_expired_purge_keeps_slot.1 ⟨[[1]], [], [], [], [([1], ⟨[7], 0, 0, 1⟩)], 5⟩
      [1] ⟨[7], 0, 0, 1⟩ 5 (by decide) (by decide)).2).trans (by decide),
    (c9_expired_purge_keeps_slot.2.1 ⟨[[1]], [], [], [], [], 0⟩ [9] [1] []
      rfl rfl (by decide)).trans (by decide),
    (c9_expired_purge_keeps_slot.2.2 ⟨[], [[2]], [], [], [], 3⟩ [9] [2] []
      (by decide) rfl rfl).trans (by decide)⟩

theorem l1EvictLoop_noop {o : List Key} (m : List (Key × Entry))
    (h : o.length ≤ L1_MAX_ENTRIES) : l1EvictLoop o m = (o, m) := by
  cases o with
  | nil => rfl
  | cons a rest =>
    simp only [l1EvictLoop]
    rw [if_neg (Nat.not_lt.mpr h)]

theorem l1EvictLoop_cons_over (a : Key) (o : List Key) (m : List (Key × Entry))
    (h : (a :: o).length > L1_MAX_ENTRIES) :
    l1EvictLoop (a :: o) m = l1EvictLoop o (mapRemove m a) := by
  simp only [l1EvictLoop]
  rw [if_pos h]

/-- C10: when a key is absent from L1's map but still present in the
insertion-history queue (the lazy-expiration leftover), a re-insert appends
the key to the queue again — the membership test consults the map, not the
queue — so the queue holds the key twice and both occurrences count against
the 1024 capacity slots; shown concretely by expire-purge followed by
re-insert from a fresh L1, which yields queue `[[1], [1]]` over a one-entry
map. -/
theorem c10_l1_queue_duplicates :
    (∀ (st : L1State) (k : Key) (e : Entry),
        mapFind st.map k = none → k ∈ st.order → st.order.length < 1024 →
        (l1Insert st k e).2.order = st.order ++ [k] ∧
        (l1Insert st k e).2.order.count k = st.order.count k + 1) ∧
    ((l1Insert (l1Lookup (l1Insert L1.fresh [1] ⟨[7], 0, 0, 1⟩).2 [1] 5).2
        [1] ⟨[8], 0, 5, 10⟩).2.order = [[1], [1]] ∧
      (l1Insert (l1Lookup (l1Insert L1.fresh [1] ⟨[7], 0, 0, 1⟩).2 [1] 5).2
        [1] ⟨[8], 0, 5, 10⟩).2.map.length = 1) := by
  constructor
  · intro st k e hf hmem hlen
    have hc : mapContains st.map k = false := by simp [mapContains, hf]
    have horder : (l1Insert st k e).2.order = st.order ++ [k] := by
      rw [l1Insert_state, hc]
      simp only [Bool.false_eq_true, if_false, ite_false, if_neg, not_false_iff]
      rw [l1EvictLoop_noop _ (by
        simp only [List.length_append, List.length_singleton]
        unfold L1_MAX_ENTRIES
        omega)]
    refine ⟨horder, ?_⟩
    rw [horder]
    simp
  · exact ⟨by decide, by decide⟩

/-- C10 witness: re-inserting key `[1]` into a state where it sits in the
queue but not in the map duplicates its queue occurrence. -/
theorem c10_l1_queue_duplicates_witness :
    (l1Insert ⟨[], [[1]]⟩ [1] ⟨[8], 0, 5, 10⟩).2.order = [[1], [1]] ∧
    (l1Insert ⟨[], [[1]]⟩ [1] ⟨[8], 0, 5, 10⟩).2.order.count [1] = 2 :=
  ⟨(c10_l1_queue_duplicates.1 ⟨[], [[1]]⟩ [1] ⟨[8], 0, 5, 10⟩ rfl (by decide)
      (by decide)).1.trans (by decide),
    (c10_l1_queue_duplicates.1 ⟨[], [[1]]⟩ [1] ⟨[8], 0, 5, 10⟩ rfl (by decide)
      (by decide)).2.trans (by decide)⟩

/-! ### C8 scenario: 1025 distinct fresh inserts into L1 -/

/-- The common never-expiring entry of the C8 insertion scenario. -/
def c8Entry : Entry := ⟨[42], 0, 0, 1000000000⟩

/-- Key `k_i` of the C8 scenario. -/
def c8Key (i : Nat) : Key := [i]

/-- L1 state after inserting `k_0 .. k_(n-1)` in order into a fresh L1. -/
def l1Run (n : Nat) : L1State :=
  (List.range n).foldl (fun st i => (l1Insert st (c8Key i) c8Entry).2) L1.fresh

/-- Closed form of the map after `n ≤ 1024` fresh inserts (newest first). -/
def c8MkMap : Nat → List (Key × Entry)
  | 0 => []
  | n + 1 => (c8Key n, c8Entry) :: c8MkMap n

/-- Closed form of the queue after `n ≤ 1024` fresh inserts (oldest first). -/
def c8MkOrder (n : Nat) : List Key := (List.range n).map c8Key

/-- The queue left after the single eviction in step 1025. -/
def c8Rest : List Key := (List.range 1024).map (fun i => c8Key (i + 1))

theorem c8_find_mkMap (n j : Nat) :
    mapFind (c8MkMap n) (c8Key j) = if j < n then some c8Entry else none := by
  induction n with
  | zero => simp [c8MkMap, mapFind]
  | succ n ih =>
    simp only [c8MkMap, mapFind_cons]
    by_cases h : n = j
    · subst h
      simp
    · rw [if_neg (by simp [c8Key, h]), ih]
      by_cases hj : j < n
      · rw [if_pos hj, if_pos (by omega)]
      · rw [if_neg hj, if_neg (by omega)]

theorem c8_run_succ (n : Nat) :
    l1Run (n + 1) = (l1Insert (l1Run n) (c8Key n) c8Entry).2 := by
  unfold l1Run
  rw [List.range_succ, List.foldl_append]
  rfl

theorem c8_mkOrder_succ (n : Nat) :
    c8MkOrder (n + 1) = c8MkOrder n ++ [c8Key n] := by
  unfold c8MkOrder
  rw [List.range_succ, List.map_append]
  rfl

theorem c8_mkOrder_length (n : Nat) : (c8MkOrder n).length = n := by
  simp [c8MkOrder]

theorem c8_insert_step (n : Nat) (hn : n ≤ 1023) :
    (l1Insert ⟨c8MkMap n, c8MkOrder n⟩ (c8Key n) c8Entry).2 =
      ⟨c8MkMap (n + 1), c8MkOrder (n + 1)⟩ := by
  have hf : mapFind (c8MkMap n) (c8Key n) = none := by
    rw [c8_find_mkMap]
    simp
  have hc : mapContains (c8MkMap n) (c8Key n) = false := by
    simp [mapContains, hf]
  rw [l1Insert_state]
  rw [if_neg (show ¬mapContains (c8MkMap n) (c8Key n) = true by rw [hc]; simp)]
  rw [l1EvictLoop_noop _ (by
    simp only [List.length_append, List.length_singleton, c8_mkOrder_length]
    unfold L1_MAX_ENTRIES
    omega)]
  show L1State.mk (mapInsert (c8MkMap n) (c8Key n) c8Entry) (c8MkOrder n ++ [c8Key n]) = _
  rw [show mapInsert (c8MkMap n) (c8Key n) c8Entry = c8MkMap (n + 1) by
    unfold mapInsert
    rw [mapRemove_of_find_none hf]
    rfl]
  rw [← c8_mkOrder_succ]

theorem c8_run_eq (n : Nat) (h : n ≤ 1024) :
    l1Run n = ⟨c8MkMap n, c8MkOrder n⟩ := by
  induction n with
  | zero => rfl
  | succ n ih =>
    rw [c8_run_succ, ih (by omega), c8_insert_step n (by omega)]

theorem c8_mkOrder_1025 : c8MkOrder 1025 = c8Key 0 :: c8Rest := by
  unfold c8MkOrder c8Rest
  rw [List.range_succ_eq_map, List.map_cons, List.map_map]
  rfl

theorem c8_rest_length : c8Rest.length = 1024 := by
  unfold c8Rest
  rw [List.length_map, List.length_range]

set_option maxRecDepth 100000 in
theorem c8_run_1025 :
    l1Run 1025 = ⟨mapRemove (c8MkMap 1025) (c8Key 0), c8Rest⟩ := by
  rw [c8_run_succ, c8_run_eq 1024 (by omega)]
  have hf : mapFind (c8MkMap 1024) (c8Key 1024) = none := by
    rw [c8_find_mkMap]
    simp
  have hc : mapContains (c8MkMap 1024) (c8Key 1024) = false := by
    simp [mapContains, hf]
  rw [l1Insert_state]
  rw [if_neg (show ¬mapContains (c8MkMap 1024) (c8Key 1024) = true by rw [hc]; simp)]
  rw [show mapInsert (c8MkMap 1024) (c8Key 1024) c8Entry = c8MkMap 1025 by
    unfold mapInsert
    rw [mapRemove_of_find_none hf]
    rfl]
  rw [← c8_mkOrder_succ, c8_mkOrder_1025]
  rw [l1EvictLoop_cons_over _ _ _ (by
    rw [List.length_cons, c8_rest_length]
    decide)]
  rw [l1EvictLoop_noop _ (by rw [c8_rest_length]; decide)]

theorem c8_run_reached (n : Nat) : L1Reached (l1Run n) := by
  induction n with
  | zero => exact L1Reached.fresh
  | succ n ih =>
    rw [c8_run_succ]
    exact L1Reached.insert (c8Key n) c8Entry ih

set_option maxRecDepth 100000 in
/-- C8: inserting the 1025 distinct, never-expiring keys `k_0 .. k_1024` in
order into a fresh L1 evicts `k_0` (its lookup is `NotFound`) while `k_1024`
is returned with the inserted entry, and after every operation of the run the
map holds at most 1024 entries. -/
theorem c8_l1_fifo_eviction :
    (l1Lookup (l1Run 1025) (c8Key 0) 0).1 = .err .NotFound ∧
    (l1Lookup (l1Run 1025) (c8Key 1024) 0).1 = .ok c8Entry ∧
    (∀ n : Nat, (l1Run n).map.length ≤ 1024) := by
  refine ⟨?_, ?_, ?_⟩
  · rw [c8_run_1025]
    rw [l1Lookup_miss_eq 0 (mapFind_mapRemove_self (c8MkMap 1025) (c8Key 0))]
  · rw [c8_run_1025]
    have hf : mapFind (mapRemove (c8MkMap 1025) (c8Key 0)) (c8Key 1024) =
        some c8Entry := by
      rw [mapFind_mapRemove_ne _ (by simp [c8Key])]
      rw [c8_find_mkMap]
      simp
    rw [l1Lookup_ok_eq hf (by decide)]
  · intro n
    exact l1_reached_map_length (c8_run_reached n)

end OLWSX
